import Mathlib

/-!
Verification of the kernel-backend netlink codec and message-chunking engine
of `wireguard-control` (file `src/backends/kernel.rs`).

The Rust source is shallowly embedded: each Rust type becomes a Lean
inductive/structure, each function a Lean `def`.  Netlink attribute sizes
follow the netlink TLV encoding used by the `netlink-packet-*` crates:
an attribute's `buffer_len` is its 4-byte header plus its value length
padded to 4-byte alignment; a slice's `buffer_len` is the sum of its
attributes' `buffer_len`s; a nested list entry costs its slice length plus
a 4-byte entry header.
-/

/-- Error kinds of `std::io::ErrorKind` that this backend produces or
inspects. -/
inductive IoErrorKind
  | NotFound
  | AlreadyExists
  | InvalidInput
  | InvalidData
  deriving DecidableEq, Repr

/-- An IP address, either v4 or v6; the numeric payload stands for the raw
address bytes (their exact representation is irrelevant to the codec, which
copies them verbatim). -/
inductive IpAddr
  | v4 (addr : Nat)
  | v6 (addr : Nat)
  deriving DecidableEq, Repr

/-- `IpAddr::is_ipv4` from the Rust standard library. -/
def IpAddr.is_ipv4 : IpAddr → Bool
  | .v4 _ => true
  | .v6 _ => false

/-- A socket address (`std::net::SocketAddr`), v4 or v6; the distinction
matters for the wire size of an endpoint attribute. -/
inductive SocketAddr
  | v4 (ip : Nat) (port : Nat)
  | v6 (ip : Nat) (port : Nat)
  deriving DecidableEq, Repr

/-- `device::AllowedIp`: one routable range granted to a peer. -/
structure AllowedIp where
  address : IpAddr
  cidr : Nat
  deriving DecidableEq, Repr

/-- Address-family constants `AF_INET` / `AF_INET6`. -/
def AF_INET : Nat := 2

/-- `AF_INET6`. -/
def AF_INET6 : Nat := 10

/-- Peer-flag constant `WGPEER_F_REMOVE_ME` (bit 0). -/
def WGPEER_F_REMOVE_ME : Nat := 1

/-- Peer-flag constant `WGPEER_F_REPLACE_ALLOWEDIPS` (bit 1). -/
def WGPEER_F_REPLACE_ALLOWEDIPS : Nat := 2

/-- Device-flag constant `WGDEVICE_F_REPLACE_PEERS` (bit 0). -/
def WGDEVICE_F_REPLACE_PEERS : Nat := 1

/-- `WgAllowedIpAttrs`: the typed attribute records of one allowed-IP entry.
Keys and counters are modelled as `Nat` payloads. -/
inductive WgAllowedIpAttrs
  | Family (f : Nat)
  | IpAddr (a : IpAddr)
  | Cidr (c : Nat)
  deriving DecidableEq, Repr

/-- `WgPeerAttrs`: the typed attribute records of one peer.  A 32-byte key is
modelled as a `Nat` payload (the codec copies it verbatim). -/
inductive WgPeerAttrs
  | Flags (f : Nat)
  | PublicKey (k : Nat)
  | PresharedKey (k : Nat)
  | Endpoint (e : SocketAddr)
  | PersistentKeepalive (i : Nat)
  | LastHandshake (t : Nat)
  | RxBytes (n : Nat)
  | TxBytes (n : Nat)
  | AllowedIps (ips : List (List WgAllowedIpAttrs))
  deriving DecidableEq, Repr

/-- `WgDeviceAttrs`: the typed attribute records of one device. -/
inductive WgDeviceAttrs
  | IfName (s : String)
  | PrivateKey (k : Nat)
  | PublicKey (k : Nat)
  | Flags (f : Nat)
  | ListenPort (p : Nat)
  | Fwmark (m : Nat)
  | Peers (ps : List (List WgPeerAttrs))
  deriving DecidableEq, Repr

/-- Pad a netlink attribute value length to 4-byte alignment. -/
def align4 (n : Nat) : Nat := n + (4 - n % 4) % 4

/-- A netlink attribute's total encoded length: 4-byte header plus the
aligned value. -/
def nlaTotal (valueLen : Nat) : Nat := align4 valueLen + 4

/-- Value length of one allowed-IP attribute (family `u16`, address 4 or 16
bytes, cidr `u8`). -/
def WgAllowedIpAttrs.value_len : WgAllowedIpAttrs → Nat
  | .Family _ => 2
  | .IpAddr a => match a with
    | .v4 _ => 4
    | .v6 _ => 16
  | .Cidr _ => 1

/-- `buffer_len` of one allowed-IP attribute. -/
def WgAllowedIpAttrs.buffer_len (a : WgAllowedIpAttrs) : Nat :=
  nlaTotal a.value_len

/-- `buffer_len` of a slice of allowed-IP attributes. -/
def allowedIpSliceLen (l : List WgAllowedIpAttrs) : Nat :=
  (l.map WgAllowedIpAttrs.buffer_len).sum

/-- Value length of one peer attribute (keys 32 bytes, endpoint is a
`sockaddr_in` (16) or `sockaddr_in6` (28), keepalive `u16`, handshake a
16-byte timespec, counters `u64`, nested allowed-IP list entries cost their
slice plus a 4-byte entry header). -/
def WgPeerAttrs.value_len : WgPeerAttrs → Nat
  | .Flags _ => 4
  | .PublicKey _ => 32
  | .PresharedKey _ => 32
  | .Endpoint e => match e with
    | .v4 _ _ => 16
    | .v6 _ _ => 28
  | .PersistentKeepalive _ => 2
  | .LastHandshake _ => 16
  | .RxBytes _ => 8
  | .TxBytes _ => 8
  | .AllowedIps ips => (ips.map (fun e => allowedIpSliceLen e + 4)).sum

/-- `buffer_len` of one peer attribute. -/
def WgPeerAttrs.buffer_len (a : WgPeerAttrs) : Nat :=
  nlaTotal a.value_len

/-- `buffer_len` of a slice of peer attributes: `peer.as_slice().buffer_len()`. -/
def peerSliceLen (l : List WgPeerAttrs) : Nat :=
  (l.map WgPeerAttrs.buffer_len).sum

/-- Value length of one device attribute (interface name is its bytes plus a
trailing NUL, keys 32 bytes, port `u16`, fwmark/flags `u32`, nested peer list
entries cost their slice plus a 4-byte entry header). -/
def WgDeviceAttrs.value_len : WgDeviceAttrs → Nat
  | .IfName s => s.utf8ByteSize + 1
  | .PrivateKey _ => 32
  | .PublicKey _ => 32
  | .Flags _ => 4
  | .ListenPort _ => 2
  | .Fwmark _ => 4
  | .Peers ps => (ps.map (fun p => peerSliceLen p + 4)).sum

/-- `buffer_len` of one device attribute. -/
def WgDeviceAttrs.buffer_len (a : WgDeviceAttrs) : Nat :=
  nlaTotal a.value_len

/-- `buffer_len` of a slice of device attributes. -/
def deviceSliceLen (l : List WgDeviceAttrs) : Nat :=
  (l.map WgDeviceAttrs.buffer_len).sum

/-- Modelled from the spec: `MAX_NETLINK_BUFFER_LENGTH`, the socket buffer
cap of the `netlink-request` crate of this repository (not under `src/`);
the spec fixes only that it is the larger, socket-level bound. -/
def MAX_NETLINK_BUFFER_LENGTH : Nat := 4096

/-- Modelled from the spec: `MAX_GENL_PAYLOAD_LENGTH`, the fixed
generic-protocol payload cap of the `netlink-request` crate (not under
`src/`): the socket buffer bound minus the netlink (16-byte) and generic
(4-byte) headers. -/
def MAX_GENL_PAYLOAD_LENGTH : Nat := MAX_NETLINK_BUFFER_LENGTH - 16 - 4

/-- `WireguardCmd` of the generic-netlink wireguard family. -/
inductive WireguardCmd
  | GetDevice
  | SetDevice
  deriving DecidableEq, Repr

/-- One generic-netlink wireguard message (`GenlMessage<Wireguard>`),
modelled by its command and device-attribute payload. -/
structure WgMessage where
  cmd : WireguardCmd
  nlas : List WgDeviceAttrs
  deriving DecidableEq, Repr

/-- Encoded payload length of one message: the `buffer_len` of its
device-attribute slice. -/
def WgMessage.payloadLen (m : WgMessage) : Nat := deviceSliceLen m.nlas

/-- Is this device attribute a `Peers` record? -/
def WgDeviceAttrs.isPeersAttr : WgDeviceAttrs → Bool
  | .Peers _ => true
  | _ => false

/-- Is this device attribute a `Peers` record with an empty list
(the pattern dropped by `flush_nlas`)? -/
def WgDeviceAttrs.isEmptyPeersAttr : WgDeviceAttrs → Bool
  | .Peers ps => ps.length == 0
  | _ => false

/-- Is this device attribute an `IfName` record? -/
def WgDeviceAttrs.isIfNameAttr : WgDeviceAttrs → Bool
  | .IfName _ => true
  | _ => false

/-- The chunking accumulator `ApplyPayload`.  `iface` holds the target
interface name; `nlas` the attributes of the message being built;
`current_buffer_len` the running size estimate; `messages` the finalized
messages. -/
structure ApplyPayload where
  iface : String
  nlas : List WgDeviceAttrs
  current_buffer_len : Nat
  messages : List WgMessage
  deriving DecidableEq, Repr

/-- `ApplyPayload::new`: a fresh accumulator with an empty attribute list
and a zero size estimate. -/
def ApplyPayload.new (iface : String) : ApplyPayload :=
  { iface := iface, nlas := [], current_buffer_len := 0, messages := [] }

/-- `ApplyPayload::flush_nlas`: drop empty peer lists; if any attributes
remain, emit them as one `SetDevice` message and restart the accumulator
from the bare interface-name attribute; either way the size estimate resets
to the name attribute's length. -/
def ApplyPayload.flush_nlas (p : ApplyPayload) : ApplyPayload :=
  let kept := p.nlas.filter (fun nla => !nla.isEmptyPeersAttr)
  let nameNla := WgDeviceAttrs.IfName p.iface
  if kept.isEmpty then
    { p with nlas := kept, current_buffer_len := nameNla.buffer_len }
  else
    { p with
        nlas := [nameNla],
        current_buffer_len := nameNla.buffer_len,
        messages := p.messages ++ [{ cmd := .SetDevice, nlas := kept }] }

/-- `ApplyPayload::push`: flush first when the attribute would overflow the
payload cap, then append it and grow the size estimate. -/
def ApplyPayload.push (p : ApplyPayload) (nla : WgDeviceAttrs) : ApplyPayload :=
  let len := nla.buffer_len
  let q := if p.current_buffer_len + len > MAX_GENL_PAYLOAD_LENGTH then p.flush_nlas else p
  { q with nlas := q.nlas ++ [nla], current_buffer_len := q.current_buffer_len + len }

/-- Append a peer record-list to the first `Peers` attribute of the list
(the `iter_mut().find_map(...)` of `push_peer`; the `expect` there is
unreachable because a `Peers` attribute is always present at the call,
so the no-`Peers` case is modelled as the identity). -/
def appendToFirstPeers : List WgDeviceAttrs → List WgPeerAttrs → List WgDeviceAttrs
  | [], _ => []
  | .Peers ps :: rest, pr => .Peers (ps ++ [pr]) :: rest
  | x :: rest, pr => x :: appendToFirstPeers rest pr

/-- `ApplyPayload::push_peer`: account the peer's encoded length plus, when
no `Peers` attribute exists yet, the overhead of introducing an empty one;
flush first on overflow; then ensure a `Peers` attribute exists, append the
peer's record-list to it, and grow the size estimate. -/
def ApplyPayload.push_peer (p : ApplyPayload) (peer : List WgPeerAttrs) : ApplyPayload :=
  let emptyPeers := WgDeviceAttrs.Peers []
  let needs0 := !(p.nlas.any WgDeviceAttrs.isPeersAttr)
  let peer_buffer_len := peerSliceLen peer + 4
  let additional_buffer_len :=
    peer_buffer_len + (if needs0 then emptyPeers.buffer_len else 0)
  let flushed := p.current_buffer_len + additional_buffer_len > MAX_GENL_PAYLOAD_LENGTH
  let q := if flushed then p.flush_nlas else p
  let needs := needs0 || flushed
  let r := if needs then q.push emptyPeers else q
  { r with
      nlas := appendToFirstPeers r.nlas peer,
      current_buffer_len := r.current_buffer_len + peer_buffer_len }

/-- `ApplyPayload::finish`: a final flush, then the accumulated messages. -/
def ApplyPayload.finish (p : ApplyPayload) : List WgMessage :=
  p.flush_nlas.messages

/-- One operation fed to the accumulator: a device attribute (`push`) or a
peer record-list (`push_peer`). -/
inductive ApplyOp
  | dev (a : WgDeviceAttrs)
  | peer (p : List WgPeerAttrs)
  deriving DecidableEq, Repr

/-- Run a sequence of operations against an accumulator. -/
def ApplyPayload.run (p : ApplyPayload) : List ApplyOp → ApplyPayload
  | [] => p
  | .dev a :: ops => (p.push a).run ops
  | .peer pr :: ops => (p.push_peer pr).run ops

/-- First `IpAddr` record of an allowed-IP attribute list
(`get_nla_value!` is `iter().find_map(...)`: the first matching record). -/
def getIpAddr (l : List WgAllowedIpAttrs) : Option IpAddr :=
  l.findSome? (fun a => match a with | .IpAddr v => some v | _ => none)

/-- First `Cidr` record of an allowed-IP attribute list. -/
def getCidr (l : List WgAllowedIpAttrs) : Option Nat :=
  l.findSome? (fun a => match a with | .Cidr v => some v | _ => none)

/-- `AllowedIp::try_from(Vec<WgAllowedIpAttrs>)`: both the address and the
prefix length are required; a missing one is a `NotFound` error. -/
def AllowedIp.tryFrom (attrs : List WgAllowedIpAttrs) : Except IoErrorKind AllowedIp :=
  match getIpAddr attrs with
  | none => .error .NotFound
  | some address =>
    match getCidr attrs with
    | none => .error .NotFound
    | some cidr => .ok { address := address, cidr := cidr }

/-- `AllowedIp::to_attrs`: family tag (from the address's version), address,
prefix length. -/
def AllowedIp.to_attrs (ip : AllowedIp) : List WgAllowedIpAttrs :=
  [ .Family (if ip.address.is_ipv4 then AF_INET else AF_INET6),
    .IpAddr ip.address,
    .Cidr ip.cidr ]

/-- `PeerConfigBuilder`: a peer configuration plus the two write-path flags. -/
structure PeerConfigBuilder where
  public_key : Nat
  preshared_key : Option Nat
  endpoint : Option SocketAddr
  persistent_keepalive_interval : Option Nat
  allowed_ips : List AllowedIp
  remove_me : Bool
  replace_allowed_ips : Bool
  deriving DecidableEq, Repr

/-- `PeerConfigBuilder::to_attrs`: public key, then the optional endpoint,
preshared key and keepalive, always an allowed-IPs record, and a flags
record only when the accumulated bitmask is nonzero (the two `|=` updates
amount to OR-ing the set flags' constants). -/
def PeerConfigBuilder.to_attrs (b : PeerConfigBuilder) : List WgPeerAttrs :=
  let attrs := [WgPeerAttrs.PublicKey b.public_key]
  let attrs := attrs ++
    (match b.endpoint with | some e => [WgPeerAttrs.Endpoint e] | none => [])
  let attrs := attrs ++
    (match b.preshared_key with | some k => [WgPeerAttrs.PresharedKey k] | none => [])
  let attrs := attrs ++
    (match b.persistent_keepalive_interval with
     | some i => [WgPeerAttrs.PersistentKeepalive i]
     | none => [])
  let attrs := attrs ++ [WgPeerAttrs.AllowedIps (b.allowed_ips.map AllowedIp.to_attrs)]
  let flags := (if b.remove_me then WGPEER_F_REMOVE_ME else 0) |||
      (if b.replace_allowed_ips then WGPEER_F_REPLACE_ALLOWEDIPS else 0)
  attrs ++ (if flags ≠ 0 then [WgPeerAttrs.Flags flags] else [])

/-- `PeerConfig`: the non-flag fields of a peer configuration. -/
structure PeerConfig where
  public_key : Nat
  preshared_key : Option Nat
  endpoint : Option SocketAddr
  persistent_keepalive_interval : Option Nat
  allowed_ips : List AllowedIp
  deriving DecidableEq, Repr

/-- `PeerStats`: kernel-supplied runtime statistics of one peer. -/
structure PeerStats where
  last_handshake_time : Option Nat
  rx_bytes : Nat
  tx_bytes : Nat
  deriving DecidableEq, Repr

/-- `PeerInfo`: the read-side view of one peer. -/
structure PeerInfo where
  config : PeerConfig
  stats : PeerStats
  deriving DecidableEq, Repr

/-- `collect::<Result<Vec<_>, _>>()` over a decoding map: the first failure
aborts the whole list. -/
def tryFromList (f : α → Except IoErrorKind β) : List α → Except IoErrorKind (List β)
  | [] => .ok []
  | x :: xs =>
    match f x with
    | .error e => .error e
    | .ok y =>
      match tryFromList f xs with
      | .error e => .error e
      | .ok ys => .ok (y :: ys)

/-- First `PublicKey` record of a peer attribute list. -/
def getPeerPublicKey (l : List WgPeerAttrs) : Option Nat :=
  l.findSome? (fun a => match a with | .PublicKey v => some v | _ => none)

/-- First `PresharedKey` record of a peer attribute list. -/
def getPeerPresharedKey (l : List WgPeerAttrs) : Option Nat :=
  l.findSome? (fun a => match a with | .PresharedKey v => some v | _ => none)

/-- First `Endpoint` record of a peer attribute list. -/
def getPeerEndpoint (l : List WgPeerAttrs) : Option SocketAddr :=
  l.findSome? (fun a => match a with | .Endpoint v => some v | _ => none)

/-- First `PersistentKeepalive` record of a peer attribute list. -/
def getPeerKeepalive (l : List WgPeerAttrs) : Option Nat :=
  l.findSome? (fun a => match a with | .PersistentKeepalive v => some v | _ => none)

/-- First `AllowedIps` record of a peer attribute list. -/
def getPeerAllowedIps (l : List WgPeerAttrs) : Option (List (List WgAllowedIpAttrs)) :=
  l.findSome? (fun a => match a with | .AllowedIps v => some v | _ => none)

/-- First `LastHandshake` record of a peer attribute list. -/
def getPeerLastHandshake (l : List WgPeerAttrs) : Option Nat :=
  l.findSome? (fun a => match a with | .LastHandshake v => some v | _ => none)

/-- First `RxBytes` record of a peer attribute list. -/
def getPeerRxBytes (l : List WgPeerAttrs) : Option Nat :=
  l.findSome? (fun a => match a with | .RxBytes v => some v | _ => none)

/-- First `TxBytes` record of a peer attribute list. -/
def getPeerTxBytes (l : List WgPeerAttrs) : Option Nat :=
  l.findSome? (fun a => match a with | .TxBytes v => some v | _ => none)

/-- First `Flags` record of a peer attribute list (not read by the decoder;
used to state properties of the encoder). -/
def getPeerFlags (l : List WgPeerAttrs) : Option Nat :=
  l.findSome? (fun a => match a with | .Flags v => some v | _ => none)

/-- `PeerInfo::try_from(Vec<WgPeerAttrs>)`: the public key is required
(`NotFound` if absent); other fields default when absent; nested allowed-IP
entries are decoded with the first failure failing the whole peer. -/
def PeerInfo.tryFrom (attrs : List WgPeerAttrs) : Except IoErrorKind PeerInfo :=
  match getPeerPublicKey attrs with
  | none => .error .NotFound
  | some public_key =>
    match tryFromList AllowedIp.tryFrom ((getPeerAllowedIps attrs).getD []) with
    | .error e => .error e
    | .ok allowed_ips =>
      .ok {
        config := {
          public_key := public_key,
          preshared_key := getPeerPresharedKey attrs,
          endpoint := getPeerEndpoint attrs,
          persistent_keepalive_interval := getPeerKeepalive attrs,
          allowed_ips := allowed_ips },
        stats := {
          last_handshake_time := getPeerLastHandshake attrs,
          rx_bytes := (getPeerRxBytes attrs).getD 0,
          tx_bytes := (getPeerTxBytes attrs).getD 0 } }

/-- First `IfName` record of a device attribute list. -/
def getDevIfName (l : List WgDeviceAttrs) : Option String :=
  l.findSome? (fun a => match a with | .IfName v => some v | _ => none)

/-- First `PublicKey` record of a device attribute list. -/
def getDevPublicKey (l : List WgDeviceAttrs) : Option Nat :=
  l.findSome? (fun a => match a with | .PublicKey v => some v | _ => none)

/-- First `PrivateKey` record of a device attribute list. -/
def getDevPrivateKey (l : List WgDeviceAttrs) : Option Nat :=
  l.findSome? (fun a => match a with | .PrivateKey v => some v | _ => none)

/-- First `ListenPort` record of a device attribute list. -/
def getDevListenPort (l : List WgDeviceAttrs) : Option Nat :=
  l.findSome? (fun a => match a with | .ListenPort v => some v | _ => none)

/-- First `Fwmark` record of a device attribute list. -/
def getDevFwmark (l : List WgDeviceAttrs) : Option Nat :=
  l.findSome? (fun a => match a with | .Fwmark v => some v | _ => none)

/-- First `Peers` record of a device attribute list. -/
def getDevPeers (l : List WgDeviceAttrs) : Option (List (List WgPeerAttrs)) :=
  l.findSome? (fun a => match a with | .Peers v => some v | _ => none)

/-- Modelled from the spec: `InterfaceName` validation (the `.parse()` of a
name string into `InterfaceName`, defined outside `src/`): a valid name is a
nonempty short string below the 16-byte kernel limit. -/
def isValidIfaceName (s : String) : Bool :=
  s != "" && s.utf8ByteSize < 16

/-- Modelled from the spec: parsing a string into an `InterfaceName`
(outside `src/`); a failed validation surfaces as an invalid-input error. -/
def parseIfaceName (s : String) : Except IoErrorKind String :=
  if isValidIfaceName s then .ok s else .error .InvalidInput

/-- `Device`: the read-side view of one tunnel interface. -/
structure Device where
  name : String
  public_key : Option Nat
  private_key : Option Nat
  listen_port : Option Nat
  fwmark : Option Nat
  peers : List PeerInfo
  deriving DecidableEq, Repr

/-- `Device::try_from(&Wireguard)` applied to the response's device
attribute list: the interface name is required and must parse (both
failures propagate); peer entries decode via `PeerInfo.tryFrom`, the first
failure aborting; the other fields default when absent. -/
def Device.tryFrom (nlas : List WgDeviceAttrs) : Except IoErrorKind Device :=
  match getDevIfName nlas with
  | none => .error .NotFound
  | some s =>
    match parseIfaceName s with
    | .error e => .error e
    | .ok name =>
      match tryFromList PeerInfo.tryFrom ((getDevPeers nlas).getD []) with
      | .error e => .error e
      | .ok peers =>
        .ok {
          name := name,
          public_key := getDevPublicKey nlas,
          private_key := getDevPrivateKey nlas,
          listen_port := getDevListenPort nlas,
          fwmark := getDevFwmark nlas,
          peers := peers }

/-- `DeviceUpdate`: the write-side request driving `apply`. -/
structure DeviceUpdate where
  private_key : Option Nat
  fwmark : Option Nat
  listen_port : Option Nat
  replace_peers : Bool
  peers : List PeerConfigBuilder
  deriving DecidableEq, Repr

/-- The accumulator `apply` builds from a `DeviceUpdate` before sending:
each present scalar field is pushed, then the replace-peers flag if
requested, then every peer's encoded record-list in order. -/
def applyPayloadOf (builder : DeviceUpdate) (iface : String) : ApplyPayload :=
  let p := ApplyPayload.new iface
  let p := match builder.private_key with | some k => p.push (.PrivateKey k) | none => p
  let p := match builder.fwmark with | some f => p.push (.Fwmark f) | none => p
  let p := match builder.listen_port with | some f => p.push (.ListenPort f) | none => p
  let p := if builder.replace_peers then p.push (.Flags WGDEVICE_F_REPLACE_PEERS) else p
  builder.peers.foldl (fun p peer => p.push_peer peer.to_attrs) p

/-- The two rtnetlink link-management request kinds `add_del` can issue. -/
inductive RtnlKind
  | NewLink
  | DelLink
  deriving DecidableEq, Repr

/-- Netlink flag `NLM_F_REQUEST`. -/
def NLM_F_REQUEST : Nat := 1

/-- Netlink flag `NLM_F_ACK`. -/
def NLM_F_ACK : Nat := 4

/-- Netlink flag `NLM_F_EXCL`. -/
def NLM_F_EXCL : Nat := 512

/-- Netlink flag `NLM_F_CREATE`. -/
def NLM_F_CREATE : Nat := 1024

/-- `add_del`: issue a create (`NewLink`, with create/exclusive flags) or
delete (`DelLink`) request through the link-management transport (modelled
as an oracle from request kind and flags to a result), then swallow an
`AlreadyExists` error into success and propagate every other error.  The
error handling does not depend on `add`. -/
def add_del (add : Bool) (transport : RtnlKind → Nat → Except IoErrorKind Unit) :
    Except IoErrorKind Unit :=
  let extra_flags := if add then NLM_F_CREATE ||| NLM_F_EXCL else 0
  let kind := if add then RtnlKind.NewLink else RtnlKind.DelLink
  let result := transport kind (NLM_F_REQUEST ||| NLM_F_ACK ||| extra_flags)
  match result with
  | .error e => if e ≠ .AlreadyExists then .error e else .ok ()
  | .ok _ => .ok ()

/-- `delete_interface`: `add_del` with `add = false`. -/
def delete_interface (transport : RtnlKind → Nat → Except IoErrorKind Unit) :
    Except IoErrorKind Unit :=
  add_del false transport

/-- The link-kind tag of a link's `Info` attribute. -/
inductive InfoKind
  | Wireguard
  | OtherKind (s : String)
  deriving DecidableEq, Repr

/-- One entry of a link's `Info` attribute list. -/
inductive LinkInfo
  | Kind (k : InfoKind)
  | OtherInfo
  deriving DecidableEq, Repr

/-- One attribute of an rtnetlink link message. -/
inductive LinkNla
  | IfNameL (s : String)
  | InfoL (infos : List LinkInfo)
  | OtherNla
  deriving DecidableEq, Repr

/-- An rtnetlink link message: its attribute list. -/
structure LinkMessage where
  nlas : List LinkNla
  deriving DecidableEq, Repr

/-- One response message of the link dump: either an inner `NewLink`
message or anything else (filtered out). -/
inductive NetlinkResponse
  | newLink (l : LinkMessage)
  | other
  deriving DecidableEq, Repr

/-- The link filter of `enumerate`: the first `Info` attribute decides — the
link passes iff that attribute contains the wireguard kind tag; a link with
no `Info` attribute is dropped. -/
def isWireguardLink (l : LinkMessage) : Bool :=
  match l.nlas.findSome? (fun nla => match nla with | .InfoL infos => some infos | _ => none) with
  | some infos => infos.any (fun i => i = .Kind .Wireguard)
  | none => false

/-- First interface-name attribute of a link message. -/
def linkIfName (l : LinkMessage) : Option String :=
  l.nlas.findSome? (fun nla => match nla with | .IfNameL n => some n | _ => none)

/-- `enumerate` applied to the transport's response list: keep inner
`NewLink` messages, keep wireguard-kind links, extract each one's first
interface-name attribute, and keep only the names that parse
(`filter_map(|name| name.parse().ok())` silently drops failures). -/
def enumerate (responses : List NetlinkResponse) : List String :=
  ((((responses.filterMap
        (fun r => match r with | .newLink l => some l | .other => none)).filter
      isWireguardLink).filterMap linkIfName).filterMap
    (fun n => (parseIfaceName n).toOption))

/-- Is this peer attribute a `Flags` record? -/
def WgPeerAttrs.isFlagsAttr : WgPeerAttrs → Bool
  | .Flags _ => true
  | _ => false

/-- An operation fits a single message on its own: the interface-name
attribute plus the pushed device attribute (resp. plus the peers-list
overhead and the peer's encoded record-list) stays within the payload cap.
This is the regime in which the chunking engine's size accounting is
sound. -/
def ApplyOp.fits (iface : String) : ApplyOp → Prop
  | .dev a =>
    (WgDeviceAttrs.IfName iface).buffer_len + a.buffer_len ≤ MAX_GENL_PAYLOAD_LENGTH
  | .peer p =>
    (WgDeviceAttrs.IfName iface).buffer_len + (WgDeviceAttrs.Peers []).buffer_len
      + (peerSliceLen p + 4) ≤ MAX_GENL_PAYLOAD_LENGTH

instance (iface : String) (op : ApplyOp) : Decidable (op.fits iface) := by
  cases op <;> exact Nat.decLe _ _

/-- The peer record-lists carried by a device-attribute list: the contents
of its `Peers` records, in order. -/
def nlasPeers (l : List WgDeviceAttrs) : List (List WgPeerAttrs) :=
  (l.filterMap (fun nla => match nla with | .Peers ps => some ps | _ => none)).flatten

/-- The peer record-lists carried by a message sequence, in message order. -/
def msgsPeers (msgs : List WgMessage) : List (List WgPeerAttrs) :=
  (msgs.map (fun m => nlasPeers m.nlas)).flatten

/-- The peer record-lists supplied to the accumulator by a sequence of
operations, in order. -/
def opsPeers (ops : List ApplyOp) : List (List WgPeerAttrs) :=
  ops.filterMap (fun op => match op with | .peer p => some p | _ => none)

/-- A device-attribute operation that does not inject a `Peers` record
itself (the regime of `apply`, whose device attributes are only scalar
fields and flags); peer operations always qualify. -/
def ApplyOp.keepsPeersShape : ApplyOp → Bool
  | .dev a => !a.isPeersAttr
  | .peer _ => true

/-- A single peer whose encoded record-list alone exceeds the payload cap:
a public key plus 150 allowed-IP ranges. -/
def bigPeerAttrs : List WgPeerAttrs :=
  [ .PublicKey 2,
    .AllowedIps (List.replicate 150 [ .Family AF_INET, .IpAddr (.v4 10), .Cidr 24 ]) ]

/-- Constructor tag of an allowed-IP attribute (its netlink attribute
type). -/
def WgAllowedIpAttrs.tag : WgAllowedIpAttrs → Nat
  | .Family _ => 0
  | .IpAddr _ => 1
  | .Cidr _ => 2

/-- Constructor tag of a peer attribute (its netlink attribute type). -/
def WgPeerAttrs.tag : WgPeerAttrs → Nat
  | .Flags _ => 0
  | .PublicKey _ => 1
  | .PresharedKey _ => 2
  | .Endpoint _ => 3
  | .PersistentKeepalive _ => 4
  | .LastHandshake _ => 5
  | .RxBytes _ => 6
  | .TxBytes _ => 7
  | .AllowedIps _ => 8

/-- Constructor tag of a device attribute (its netlink attribute type). -/
def WgDeviceAttrs.tag : WgDeviceAttrs → Nat
  | .IfName _ => 0
  | .PrivateKey _ => 1
  | .PublicKey _ => 2
  | .Flags _ => 3
  | .ListenPort _ => 4
  | .Fwmark _ => 5
  | .Peers _ => 6

theorem findSome?_append_one (f : α → Option β) (l : List α) (a : α)
    (h : f a = none ∨ l.findSome? f ≠ none) :
    (l ++ [a]).findSome? f = l.findSome? f := by
  induction l with
  | nil =>
    cases h with
    | inl h => simp [List.findSome?, h]
    | inr h => simp [List.findSome?] at h
  | cons x xs ih =>
    cases hx : f x with
    | some b => simp [List.findSome?, hx]
    | none =>
      have h' : f a = none ∨ xs.findSome? f ≠ none := by
        cases h with
        | inl h0 => exact Or.inl h0
        | inr h0 =>
          refine Or.inr ?_
          simpa [List.findSome?, hx] using h0
      simp [List.findSome?, hx, ih h']

theorem findSome?_ne_none_of_mem (f : α → Option β) {l : List α} {b : α}
    (hb : b ∈ l) (hfb : f b ≠ none) : l.findSome? f ≠ none := by
  induction l with
  | nil => cases hb
  | cons x xs ih =>
    cases hx : f x with
    | some v => simp [List.findSome?, hx]
    | none =>
      rcases List.mem_cons.mp hb with rfl | hmem
      · exact absurd hx hfb
      · simpa [List.findSome?, hx] using ih hmem

/-- C1: the claim says every "set device" message — including the first —
carries an interface-name record; the code violates it: a fresh accumulator
starts with an empty attribute list (only post-flush accumulators are
seeded with the name), so pushing one device attribute and finishing
yields a single message with no interface-name record at all. -/
theorem c1_first_message_lacks_ifname :
    ((ApplyPayload.new "wg0").push (WgDeviceAttrs.Fwmark 111)).finish =
      [{ cmd := WireguardCmd.SetDevice, nlas := [WgDeviceAttrs.Fwmark 111] }] ∧
    ∀ m ∈ ((ApplyPayload.new "wg0").push (WgDeviceAttrs.Fwmark 111)).finish,
      ∀ nla ∈ m.nlas, nla.isIfNameAttr = false := by
  constructor
  · decide
  · decide

/-- C7 counterexample: on deletion the claim requires every transport error
to propagate, but an already-exists error is swallowed into success (the
error handling of `add_del` does not depend on the add/delete mode). -/
theorem c7_counterexample :
    add_del false (fun _ _ => Except.error IoErrorKind.AlreadyExists) = Except.ok () := by
  rfl

/-- C7 amended: for both creation (`add = true`) and deletion
(`add = false`), a successful transport result yields success, an
already-exists transport error is swallowed into success, and every other
transport error is returned unchanged. -/
theorem c7_add_del_error_policy (add : Bool)
    (t : RtnlKind → Nat → Except IoErrorKind Unit) :
    (t (if add then RtnlKind.NewLink else RtnlKind.DelLink)
        (NLM_F_REQUEST ||| NLM_F_ACK |||
          (if add then NLM_F_CREATE ||| NLM_F_EXCL else 0)) = Except.ok () →
      add_del add t = Except.ok ()) ∧
    (t (if add then RtnlKind.NewLink else RtnlKind.DelLink)
        (NLM_F_REQUEST ||| NLM_F_ACK |||
          (if add then NLM_F_CREATE ||| NLM_F_EXCL else 0)) =
        Except.error IoErrorKind.AlreadyExists →
      add_del add t = Except.ok ()) ∧
    (∀ e, e ≠ IoErrorKind.AlreadyExists →
      t (if add then RtnlKind.NewLink else RtnlKind.DelLink)
          (NLM_F_REQUEST ||| NLM_F_ACK |||
            (if add then NLM_F_CREATE ||| NLM_F_EXCL else 0)) = Except.error e →
      add_del add t = Except.error e) := by
  unfold add_del
  refine ⟨fun h => ?_, fun h => ?_, fun e he h => ?_⟩
  · simp only [h]
  · simp only [h]
    rfl
  · simp only [h]
    simp [he]

/-- Witness for the amended C7 theorem at a concrete transport outcome: a
permission-style error (`NotFound`) on deletion propagates unchanged. -/
theorem c7_add_del_error_policy_witness :
    add_del false (fun _ _ => Except.error IoErrorKind.NotFound) =
      Except.error IoErrorKind.NotFound :=
  (c7_add_del_error_policy false (fun _ _ => Except.error IoErrorKind.NotFound)).2.2
    IoErrorKind.NotFound (by decide) rfl

/-- C8: a `DeviceUpdate` with no scalar field set, `replace_peers = false`
and an empty peer list pushes nothing into the accumulator, and `finish()`
then returns zero messages. -/
theorem c8_empty_update_no_messages (iface : String) (u : DeviceUpdate)
    (h1 : u.private_key = none) (h2 : u.fwmark = none) (h3 : u.listen_port = none)
    (h4 : u.replace_peers = false) (h5 : u.peers = []) :
    (applyPayloadOf u iface).finish = [] := by
  unfold applyPayloadOf
  rw [h1, h2, h3, h4, h5]
  simp [ApplyPayload.finish, ApplyPayload.flush_nlas, ApplyPayload.new]

/-- Witness for C8 at a concrete empty update. -/
theorem c8_empty_update_no_messages_witness :
    (applyPayloadOf
      { private_key := none, fwmark := none, listen_port := none,
        replace_peers := false, peers := [] } "wg0").finish = [] :=
  c8_empty_update_no_messages "wg0" _ rfl rfl rfl rfl rfl

set_option maxRecDepth 100000 in
/-- C2 counterexample: the strict size bound does not hold for all inputs —
a single peer whose record-list alone exceeds the payload cap is kept whole
(atomicity over the bound), producing a message at least as large as the
cap. -/
theorem c2_counterexample :
    ¬ ∀ m ∈ ((ApplyPayload.new "wg0").run [ApplyOp.peer bigPeerAttrs]).finish,
        m.payloadLen < MAX_GENL_PAYLOAD_LENGTH := by
  decide

theorem AllowedIp.tryFrom_to_attrs (ip : AllowedIp) :
    AllowedIp.tryFrom ip.to_attrs = Except.ok ip := by
  cases ip with
  | mk address cidr =>
    cases address <;> rfl

theorem tryFromList_map_to_attrs (ips : List AllowedIp) :
    tryFromList AllowedIp.tryFrom (ips.map AllowedIp.to_attrs) = Except.ok ips := by
  induction ips with
  | nil => rfl
  | cons ip rest ih =>
    simp [tryFromList, AllowedIp.tryFrom_to_attrs, ih]

/-- C4: encoding a `PeerConfigBuilder` with `to_attrs` and decoding the
attribute list back with `PeerInfo::try_from` succeeds and returns exactly
the builder's non-flag fields as the peer configuration (with default
statistics), for every combination of present/absent optional fields and
any allowed-IP list. -/
theorem c4_roundtrip (b : PeerConfigBuilder) :
    PeerInfo.tryFrom b.to_attrs = Except.ok {
      config := {
        public_key := b.public_key,
        preshared_key := b.preshared_key,
        endpoint := b.endpoint,
        persistent_keepalive_interval := b.persistent_keepalive_interval,
        allowed_ips := b.allowed_ips },
      stats := { last_handshake_time := none, rx_bytes := 0, tx_bytes := 0 } } := by
  obtain ⟨pk, psk, ep, ka, ips, rm, rep⟩ := b
  cases rm <;> cases rep <;> cases psk <;> cases ep <;> cases ka <;>
    simp [PeerConfigBuilder.to_attrs, PeerInfo.tryFrom, getPeerPublicKey,
      getPeerPresharedKey, getPeerEndpoint, getPeerKeepalive, getPeerAllowedIps,
      getPeerLastHandshake, getPeerRxBytes, getPeerTxBytes, List.findSome?,
      tryFromList_map_to_attrs, WGPEER_F_REMOVE_ME, WGPEER_F_REPLACE_ALLOWEDIPS]

/-- C5: `to_attrs` emits a flags record iff at least one of the two control
flags is set; when both are false no flags record occurs at all, and any
emitted flags record's value is the bitwise OR of the set flags'
constants. -/
theorem c5_flags_record (b : PeerConfigBuilder) :
    ((∃ a ∈ b.to_attrs, a.isFlagsAttr = true) ↔
      (b.remove_me = true ∨ b.replace_allowed_ips = true)) ∧
    (∀ f, WgPeerAttrs.Flags f ∈ b.to_attrs →
      f = (if b.remove_me then WGPEER_F_REMOVE_ME else 0) |||
          (if b.replace_allowed_ips then WGPEER_F_REPLACE_ALLOWEDIPS else 0)) := by
  obtain ⟨pk, psk, ep, ka, ips, rm, rep⟩ := b
  cases rm <;> cases rep <;> cases psk <;> cases ep <;> cases ka <;>
    simp [PeerConfigBuilder.to_attrs, WgPeerAttrs.isFlagsAttr,
      WGPEER_F_REMOVE_ME, WGPEER_F_REPLACE_ALLOWEDIPS]

/-- Witness for C5 at a concrete builder with both flags clear: no flags
record is emitted. -/
theorem c5_flags_record_witness :
    ¬ ∃ a ∈ (PeerConfigBuilder.mk 7 none none none [] false false).to_attrs,
        a.isFlagsAttr = true :=
  fun h =>
    by cases
      ((c5_flags_record (PeerConfigBuilder.mk 7 none none none [] false false)).1.mp h) <;>
      simp_all

theorem tryFromList_error_of_mem (f : α → Except IoErrorKind β) {l : List α} {x : α}
    (hx : x ∈ l) (hf : ∃ e, f x = Except.error e) :
    ∃ e, tryFromList f l = Except.error e := by
  induction l with
  | nil => cases hx
  | cons y ys ih =>
    cases hy : f y with
    | error e => exact ⟨e, by simp [tryFromList, hy]⟩
    | ok v =>
      rcases List.mem_cons.mp hx with rfl | hmem
      · obtain ⟨e, he⟩ := hf
        rw [hy] at he
        cases he
      · obtain ⟨e, he⟩ := ih hmem
        exact ⟨e, by simp [tryFromList, hy, he]⟩

/-- C6: peer decoding requires a public-key record — its absence is a
`NotFound` error and no `PeerInfo` is produced; with a public key present,
each absent optional field takes its documented default in the decoded
result; and a failing nested allowed-IP entry fails the whole peer
decode. -/
theorem c6_peer_decode (attrs : List WgPeerAttrs) :
    (getPeerPublicKey attrs = none →
      PeerInfo.tryFrom attrs = Except.error IoErrorKind.NotFound) ∧
    (∀ pi, PeerInfo.tryFrom attrs = Except.ok pi →
      (getPeerPresharedKey attrs = none → pi.config.preshared_key = none) ∧
      (getPeerEndpoint attrs = none → pi.config.endpoint = none) ∧
      (getPeerKeepalive attrs = none → pi.config.persistent_keepalive_interval = none) ∧
      (getPeerAllowedIps attrs = none → pi.config.allowed_ips = []) ∧
      (getPeerLastHandshake attrs = none → pi.stats.last_handshake_time = none) ∧
      (getPeerRxBytes attrs = none → pi.stats.rx_bytes = 0) ∧
      (getPeerTxBytes attrs = none → pi.stats.tx_bytes = 0)) ∧
    (∀ ips, getPeerAllowedIps attrs = some ips →
      (∃ en ∈ ips, ∃ err, AllowedIp.tryFrom en = Except.error err) →
      ∃ err, PeerInfo.tryFrom attrs = Except.error err) := by
  refine ⟨fun h => by simp [PeerInfo.tryFrom, h], ?_, ?_⟩
  · intro pi hok
    unfold PeerInfo.tryFrom at hok
    cases hpk : getPeerPublicKey attrs with
    | none => rw [hpk] at hok; cases hok
    | some k =>
      rw [hpk] at hok
      cases hlist : tryFromList AllowedIp.tryFrom ((getPeerAllowedIps attrs).getD []) with
      | error e => rw [hlist] at hok; cases hok
      | ok ais =>
        rw [hlist] at hok
        cases hok
        refine ⟨fun h => by simp [h], fun h => by simp [h], fun h => by simp [h],
          fun h => ?_, fun h => by simp [h], fun h => by simp [h], fun h => by simp [h]⟩
        rw [h] at hlist
        simp [tryFromList] at hlist
        simp [hlist]
  · intro ips hips hex
    cases hpk : getPeerPublicKey attrs with
    | none => exact ⟨IoErrorKind.NotFound, by simp [PeerInfo.tryFrom, hpk]⟩
    | some k =>
      obtain ⟨en, hen, he⟩ := hex
      have hmem : en ∈ (getPeerAllowedIps attrs).getD [] := by
        rw [hips]; exact hen
      obtain ⟨err, herr⟩ := tryFromList_error_of_mem AllowedIp.tryFrom hmem he
      exact ⟨err, by simp [PeerInfo.tryFrom, hpk, herr]⟩

/-- Witness for C6 at a concrete peer attribute list lacking a public-key
record: decoding fails with `NotFound`. -/
theorem c6_peer_decode_witness :
    PeerInfo.tryFrom [WgPeerAttrs.Endpoint (SocketAddr.v4 1 2)] =
      Except.error IoErrorKind.NotFound :=
  (c6_peer_decode [WgPeerAttrs.Endpoint (SocketAddr.v4 1 2)]).1 rfl

theorem allowedIpDecode_congr {l₁ l₂ : List WgAllowedIpAttrs}
    (h1 : getIpAddr l₁ = getIpAddr l₂) (h2 : getCidr l₁ = getCidr l₂) :
    AllowedIp.tryFrom l₁ = AllowedIp.tryFrom l₂ := by
  unfold AllowedIp.tryFrom
  rw [h1, h2]

theorem peerInfoDecode_congr {l₁ l₂ : List WgPeerAttrs}
    (h1 : getPeerPublicKey l₁ = getPeerPublicKey l₂)
    (h2 : getPeerPresharedKey l₁ = getPeerPresharedKey l₂)
    (h3 : getPeerEndpoint l₁ = getPeerEndpoint l₂)
    (h4 : getPeerKeepalive l₁ = getPeerKeepalive l₂)
    (h5 : getPeerAllowedIps l₁ = getPeerAllowedIps l₂)
    (h6 : getPeerLastHandshake l₁ = getPeerLastHandshake l₂)
    (h7 : getPeerRxBytes l₁ = getPeerRxBytes l₂)
    (h8 : getPeerTxBytes l₁ = getPeerTxBytes l₂) :
    PeerInfo.tryFrom l₁ = PeerInfo.tryFrom l₂ := by
  unfold PeerInfo.tryFrom
  rw [h1, h2, h3, h4, h5, h6, h7, h8]

theorem deviceDecode_congr {l₁ l₂ : List WgDeviceAttrs}
    (h1 : getDevIfName l₁ = getDevIfName l₂)
    (h2 : getDevPublicKey l₁ = getDevPublicKey l₂)
    (h3 : getDevPrivateKey l₁ = getDevPrivateKey l₂)
    (h4 : getDevListenPort l₁ = getDevListenPort l₂)
    (h5 : getDevFwmark l₁ = getDevFwmark l₂)
    (h6 : getDevPeers l₁ = getDevPeers l₂) :
    Device.tryFrom l₁ = Device.tryFrom l₂ := by
  unfold Device.tryFrom
  rw [h1, h2, h3, h4, h5, h6]

/-- C10: every decode path reads only the first occurrence of each
attribute type: appending a record whose type already occurs in the list
leaves the decode result of `AllowedIp::try_from`, `PeerInfo::try_from`
and `Device::try_from` unchanged. -/
theorem c10_first_occurrence_wins :
    (∀ (l : List WgAllowedIpAttrs) (a : WgAllowedIpAttrs),
      (∃ b ∈ l, b.tag = a.tag) →
      AllowedIp.tryFrom (l ++ [a]) = AllowedIp.tryFrom l) ∧
    (∀ (l : List WgPeerAttrs) (a : WgPeerAttrs),
      (∃ b ∈ l, b.tag = a.tag) →
      PeerInfo.tryFrom (l ++ [a]) = PeerInfo.tryFrom l) ∧
    (∀ (l : List WgDeviceAttrs) (a : WgDeviceAttrs),
      (∃ b ∈ l, b.tag = a.tag) →
      Device.tryFrom (l ++ [a]) = Device.tryFrom l) := by
  refine ⟨?_, ?_, ?_⟩
  · rintro l a ⟨b, hb, htag⟩
    cases a <;> cases b <;> simp [WgAllowedIpAttrs.tag] at htag <;>
      apply allowedIpDecode_congr <;>
      first
        | exact findSome?_append_one _ l _ (Or.inl rfl)
        | exact findSome?_append_one _ l _
            (Or.inr (findSome?_ne_none_of_mem _ hb (by simp)))
  · rintro l a ⟨b, hb, htag⟩
    cases a <;> cases b <;> simp [WgPeerAttrs.tag] at htag <;>
      apply peerInfoDecode_congr <;>
      first
        | exact findSome?_append_one _ l _ (Or.inl rfl)
        | exact findSome?_append_one _ l _
            (Or.inr (findSome?_ne_none_of_mem _ hb (by simp)))
  · rintro l a ⟨b, hb, htag⟩
    cases a <;> cases b <;> simp [WgDeviceAttrs.tag] at htag <;>
      apply deviceDecode_congr <;>
      first
        | exact findSome?_append_one _ l _ (Or.inl rfl)
        | exact findSome?_append_one _ l _
            (Or.inr (findSome?_ne_none_of_mem _ hb (by simp)))

/-- Witness for C10 at a concrete duplicate: a second `Cidr` record is
ignored by `AllowedIp::try_from`. -/
theorem c10_first_occurrence_wins_witness :
    AllowedIp.tryFrom ([WgAllowedIpAttrs.Cidr 7] ++ [WgAllowedIpAttrs.Cidr 9]) =
      AllowedIp.tryFrom [WgAllowedIpAttrs.Cidr 7] :=
  c10_first_occurrence_wins.1 [WgAllowedIpAttrs.Cidr 7] (WgAllowedIpAttrs.Cidr 9)
    ⟨WgAllowedIpAttrs.Cidr 7, by simp, rfl⟩

/-- C9: a malformed interface name takes opposite paths on the two reads —
`Device::try_from` propagates the parse failure of the name record as an
error, while `enumerate` silently drops a wireguard link whose name fails
to parse and still returns the names enumerated around it. -/
theorem c9_malformed_name_policy (s : String) (h : isValidIfaceName s = false) :
    (∀ nlas, getDevIfName nlas = some s →
      Device.tryFrom nlas = Except.error IoErrorKind.InvalidInput) ∧
    (∀ pre post,
      enumerate (pre ++ NetlinkResponse.newLink
          { nlas := [LinkNla.InfoL [LinkInfo.Kind InfoKind.Wireguard],
                     LinkNla.IfNameL s] } :: post) =
        enumerate pre ++ enumerate post) := by
  constructor
  · intro nlas hn
    simp [Device.tryFrom, hn, parseIfaceName, h]
  · intro pre post
    simp [enumerate, List.filterMap_append, List.filterMap_cons, List.filter_append,
      List.filter_cons, isWireguardLink, linkIfName, List.findSome?, parseIfaceName, h,
      Except.toOption]

/-- Witness for C9 at the concrete malformed name `""`: single-device
decode fails while enumeration around the malformed link still returns the
valid neighbour. -/
theorem c9_malformed_name_policy_witness :
    Device.tryFrom [WgDeviceAttrs.IfName ""] = Except.error IoErrorKind.InvalidInput ∧
    enumerate [NetlinkResponse.newLink
        { nlas := [LinkNla.InfoL [LinkInfo.Kind InfoKind.Wireguard], LinkNla.IfNameL ""] },
      NetlinkResponse.newLink
        { nlas := [LinkNla.InfoL [LinkInfo.Kind InfoKind.Wireguard], LinkNla.IfNameL "wg0"] }] =
      enumerate [] ++ enumerate [NetlinkResponse.newLink
        { nlas := [LinkNla.InfoL [LinkInfo.Kind InfoKind.Wireguard], LinkNla.IfNameL "wg0"] }] :=
  ⟨(c9_malformed_name_policy "" (by decide)).1 [WgDeviceAttrs.IfName ""] rfl,
   (c9_malformed_name_policy "" (by decide)).2 []
     [NetlinkResponse.newLink
       { nlas := [LinkNla.InfoL [LinkInfo.Kind InfoKind.Wireguard], LinkNla.IfNameL "wg0"] }]⟩

theorem four_dvd_nlaTotal (n : Nat) : 4 ∣ nlaTotal n := by
  unfold nlaTotal align4
  omega

theorem four_dvd_peerSliceLen (l : List WgPeerAttrs) : 4 ∣ peerSliceLen l := by
  induction l with
  | nil => simp [peerSliceLen]
  | cons x xs ih =>
    simp only [peerSliceLen, List.map_cons, List.sum_cons]
    exact Nat.dvd_add (four_dvd_nlaTotal _) ih

theorem four_dvd_peersValue (ps : List (List WgPeerAttrs)) :
    4 ∣ (WgDeviceAttrs.Peers ps).value_len := by
  induction ps with
  | nil => simp [WgDeviceAttrs.value_len]
  | cons q qs ih =>
    have hq := four_dvd_peerSliceLen q
    simp only [WgDeviceAttrs.value_len, List.map_cons, List.sum_cons] at ih ⊢
    omega

theorem peers_buffer_append (ps : List (List WgPeerAttrs)) (pr : List WgPeerAttrs) :
    (WgDeviceAttrs.Peers (ps ++ [pr])).buffer_len =
      (WgDeviceAttrs.Peers ps).buffer_len + (peerSliceLen pr + 4) := by
  have hv : (WgDeviceAttrs.Peers (ps ++ [pr])).value_len =
      (WgDeviceAttrs.Peers ps).value_len + (peerSliceLen pr + 4) := by
    simp [WgDeviceAttrs.value_len]
  have h1 := four_dvd_peersValue ps
  have h2 := four_dvd_peerSliceLen pr
  simp only [WgDeviceAttrs.buffer_len, hv]
  unfold nlaTotal align4
  omega

theorem deviceSliceLen_nil : deviceSliceLen [] = 0 := rfl

theorem deviceSliceLen_cons (x : WgDeviceAttrs) (l : List WgDeviceAttrs) :
    deviceSliceLen (x :: l) = x.buffer_len + deviceSliceLen l := by
  simp [deviceSliceLen]

theorem deviceSliceLen_append (l₁ l₂ : List WgDeviceAttrs) :
    deviceSliceLen (l₁ ++ l₂) = deviceSliceLen l₁ + deviceSliceLen l₂ := by
  simp [deviceSliceLen]

theorem deviceSliceLen_filter_le (q : WgDeviceAttrs → Bool) (l : List WgDeviceAttrs) :
    deviceSliceLen (l.filter q) ≤ deviceSliceLen l := by
  induction l with
  | nil => simp
  | cons x xs ih =>
    rw [List.filter_cons]
    by_cases hx : q x = true
    · simp only [hx, if_pos, deviceSliceLen_cons]
      omega
    · simp only [hx]
      rw [if_neg (by simp [hx]), deviceSliceLen_cons]
      omega

theorem emptyPeers_buffer_len : (WgDeviceAttrs.Peers []).buffer_len = 4 := rfl

theorem appendToFirstPeers_sliceLen (l : List WgDeviceAttrs) (pr : List WgPeerAttrs) :
    deviceSliceLen (appendToFirstPeers l pr) ≤ deviceSliceLen l + (peerSliceLen pr + 4) := by
  induction l with
  | nil => simp [appendToFirstPeers]
  | cons x xs ih =>
    cases x with
    | Peers ps =>
      simp only [appendToFirstPeers, deviceSliceLen_cons, peers_buffer_append]
      omega
    | IfName s => simp only [appendToFirstPeers, deviceSliceLen_cons]; omega
    | PrivateKey k => simp only [appendToFirstPeers, deviceSliceLen_cons]; omega
    | PublicKey k => simp only [appendToFirstPeers, deviceSliceLen_cons]; omega
    | Flags f => simp only [appendToFirstPeers, deviceSliceLen_cons]; omega
    | ListenPort p => simp only [appendToFirstPeers, deviceSliceLen_cons]; omega
    | Fwmark m => simp only [appendToFirstPeers, deviceSliceLen_cons]; omega

theorem flush_nlas_spec (p : ApplyPayload) :
    p.flush_nlas.iface = p.iface ∧
    p.flush_nlas.current_buffer_len = (WgDeviceAttrs.IfName p.iface).buffer_len ∧
    deviceSliceLen p.flush_nlas.nlas ≤ (WgDeviceAttrs.IfName p.iface).buffer_len ∧
    ∀ C, deviceSliceLen p.nlas ≤ C → (∀ m ∈ p.messages, m.payloadLen ≤ C) →
      ∀ m ∈ p.flush_nlas.messages, m.payloadLen ≤ C := by
  unfold ApplyPayload.flush_nlas
  by_cases hk : (p.nlas.filter (fun nla => !nla.isEmptyPeersAttr)).isEmpty = true
  · rw [if_pos hk]
    refine ⟨rfl, rfl, ?_, ?_⟩
    · rw [List.isEmpty_iff.mp hk, deviceSliceLen_nil]
      exact Nat.zero_le _
    · intro C hsl hms m hm
      exact hms m hm
  · rw [if_neg hk]
    refine ⟨rfl, rfl, ?_, ?_⟩
    · rw [deviceSliceLen_cons, deviceSliceLen_nil]
      omega
    · intro C hsl hms m hm
      rcases List.mem_append.mp hm with hold | hnew
      · exact hms m hold
      · rcases List.mem_singleton.mp hnew with rfl
        exact le_trans (deviceSliceLen_filter_le _ _) hsl

theorem push_eq_of_fits (p : ApplyPayload) (a : WgDeviceAttrs)
    (h : p.current_buffer_len + a.buffer_len ≤ MAX_GENL_PAYLOAD_LENGTH) :
    p.push a =
      { p with
          nlas := p.nlas ++ [a]
          current_buffer_len := p.current_buffer_len + a.buffer_len } := by
  simp only [ApplyPayload.push]
  rw [if_neg (by omega)]

theorem push_size_spec (p : ApplyPayload) (a : WgDeviceAttrs)
    (hfit : (WgDeviceAttrs.IfName p.iface).buffer_len + a.buffer_len ≤ MAX_GENL_PAYLOAD_LENGTH)
    (h1 : deviceSliceLen p.nlas ≤ p.current_buffer_len)
    (h2 : p.current_buffer_len ≤ MAX_GENL_PAYLOAD_LENGTH)
    (h3 : ∀ m ∈ p.messages, m.payloadLen ≤ MAX_GENL_PAYLOAD_LENGTH) :
    (p.push a).iface = p.iface ∧
    deviceSliceLen (p.push a).nlas ≤ (p.push a).current_buffer_len ∧
    (p.push a).current_buffer_len ≤ MAX_GENL_PAYLOAD_LENGTH ∧
    ∀ m ∈ (p.push a).messages, m.payloadLen ≤ MAX_GENL_PAYLOAD_LENGTH := by
  obtain ⟨hfi, hfc, hfs, hfm⟩ := flush_nlas_spec p
  simp only [ApplyPayload.push]
  by_cases hov : p.current_buffer_len + a.buffer_len > MAX_GENL_PAYLOAD_LENGTH
  · rw [if_pos hov]
    refine ⟨hfi, ?_, ?_, ?_⟩
    · rw [deviceSliceLen_append, deviceSliceLen_cons, deviceSliceLen_nil, hfc]
      omega
    · rw [hfc]; omega
    · exact hfm MAX_GENL_PAYLOAD_LENGTH (le_trans h1 h2) h3
  · rw [if_neg hov]
    refine ⟨rfl, ?_, ?_, h3⟩
    · rw [deviceSliceLen_append, deviceSliceLen_cons, deviceSliceLen_nil]
      omega
    · omega

theorem push_peer_eq_keep (p : ApplyPayload) (pr : List WgPeerAttrs)
    (hA : p.nlas.any WgDeviceAttrs.isPeersAttr = true)
    (hov : ¬ p.current_buffer_len + (peerSliceLen pr + 4) > MAX_GENL_PAYLOAD_LENGTH) :
    p.push_peer pr =
      { p with
          nlas := appendToFirstPeers p.nlas pr
          current_buffer_len := p.current_buffer_len + (peerSliceLen pr + 4) } := by
  simp [ApplyPayload.push_peer, hA, hov]

theorem push_peer_eq_fresh (p : ApplyPayload) (pr : List WgPeerAttrs)
    (hA : p.nlas.any WgDeviceAttrs.isPeersAttr = false)
    (hov : ¬ p.current_buffer_len + (peerSliceLen pr + 4 +
        (WgDeviceAttrs.Peers []).buffer_len) > MAX_GENL_PAYLOAD_LENGTH) :
    p.push_peer pr =
      { p.push (WgDeviceAttrs.Peers []) with
          nlas := appendToFirstPeers (p.push (WgDeviceAttrs.Peers [])).nlas pr
          current_buffer_len :=
            (p.push (WgDeviceAttrs.Peers [])).current_buffer_len + (peerSliceLen pr + 4) } := by
  simp [ApplyPayload.push_peer, hA, hov]

theorem push_peer_eq_flush_haspeers (p : ApplyPayload) (pr : List WgPeerAttrs)
    (hA : p.nlas.any WgDeviceAttrs.isPeersAttr = true)
    (hov : p.current_buffer_len + (peerSliceLen pr + 4) > MAX_GENL_PAYLOAD_LENGTH) :
    p.push_peer pr =
      { p.flush_nlas.push (WgDeviceAttrs.Peers []) with
          nlas := appendToFirstPeers (p.flush_nlas.push (WgDeviceAttrs.Peers [])).nlas pr
          current_buffer_len :=
            (p.flush_nlas.push (WgDeviceAttrs.Peers [])).current_buffer_len
              + (peerSliceLen pr + 4) } := by
  simp [ApplyPayload.push_peer, hA, hov]

theorem push_peer_eq_flush_nopeers (p : ApplyPayload) (pr : List WgPeerAttrs)
    (hA : p.nlas.any WgDeviceAttrs.isPeersAttr = false)
    (hov : p.current_buffer_len + (peerSliceLen pr + 4 +
        (WgDeviceAttrs.Peers []).buffer_len) > MAX_GENL_PAYLOAD_LENGTH) :
    p.push_peer pr =
      { p.flush_nlas.push (WgDeviceAttrs.Peers []) with
          nlas := appendToFirstPeers (p.flush_nlas.push (WgDeviceAttrs.Peers [])).nlas pr
          current_buffer_len :=
            (p.flush_nlas.push (WgDeviceAttrs.Peers [])).current_buffer_len
              + (peerSliceLen pr + 4) } := by
  simp [ApplyPayload.push_peer, hA, hov]

theorem push_peer_size_spec (p : ApplyPayload) (pr : List WgPeerAttrs)
    (hfit : (WgDeviceAttrs.IfName p.iface).buffer_len + (WgDeviceAttrs.Peers []).buffer_len
        + (peerSliceLen pr + 4) ≤ MAX_GENL_PAYLOAD_LENGTH)
    (h1 : deviceSliceLen p.nlas ≤ p.current_buffer_len)
    (h2 : p.current_buffer_len ≤ MAX_GENL_PAYLOAD_LENGTH)
    (h3 : ∀ m ∈ p.messages, m.payloadLen ≤ MAX_GENL_PAYLOAD_LENGTH) :
    (p.push_peer pr).iface = p.iface ∧
    deviceSliceLen (p.push_peer pr).nlas ≤ (p.push_peer pr).current_buffer_len ∧
    (p.push_peer pr).current_buffer_len ≤ MAX_GENL_PAYLOAD_LENGTH ∧
    ∀ m ∈ (p.push_peer pr).messages, m.payloadLen ≤ MAX_GENL_PAYLOAD_LENGTH := by
  obtain ⟨hfi, hfc, hfs, hfm⟩ := flush_nlas_spec p
  rw [emptyPeers_buffer_len] at hfit
  have happ := appendToFirstPeers_sliceLen
  have hg := emptyPeers_buffer_len
  by_cases hA : p.nlas.any WgDeviceAttrs.isPeersAttr = true
  · by_cases hov : p.current_buffer_len + (peerSliceLen pr + 4) > MAX_GENL_PAYLOAD_LENGTH
    · -- overflow: flush, fresh empty peers list, then append
      have hq := push_eq_of_fits p.flush_nlas (WgDeviceAttrs.Peers [])
        (by rw [hfc, emptyPeers_buffer_len]; omega)
      rw [push_peer_eq_flush_haspeers p pr hA hov, hq]
      dsimp only
      refine ⟨hfi, ?_, ?_, ?_⟩
      · refine le_trans (happ _ _) ?_
        rw [deviceSliceLen_append, deviceSliceLen_cons, deviceSliceLen_nil,
          emptyPeers_buffer_len, hfc]
        omega
      · rw [hfc]
        omega
      · exact hfm MAX_GENL_PAYLOAD_LENGTH (le_trans h1 h2) h3
    · -- peer joins the existing peers list
      rw [push_peer_eq_keep p pr hA hov]
      dsimp only
      refine ⟨rfl, ?_, ?_, h3⟩
      · exact le_trans (happ _ _) (by omega)
      · omega
  · have hA' : p.nlas.any WgDeviceAttrs.isPeersAttr = false := by
      revert hA
      cases p.nlas.any WgDeviceAttrs.isPeersAttr <;> simp
    by_cases hov : p.current_buffer_len + (peerSliceLen pr + 4 +
        (WgDeviceAttrs.Peers []).buffer_len) > MAX_GENL_PAYLOAD_LENGTH
    · -- overflow: flush, fresh empty peers list, then append
      have hq := push_eq_of_fits p.flush_nlas (WgDeviceAttrs.Peers [])
        (by rw [hfc, emptyPeers_buffer_len]; omega)
      rw [push_peer_eq_flush_nopeers p pr hA' hov, hq]
      dsimp only
      refine ⟨hfi, ?_, ?_, ?_⟩
      · refine le_trans (happ _ _) ?_
        rw [deviceSliceLen_append, deviceSliceLen_cons, deviceSliceLen_nil,
          emptyPeers_buffer_len, hfc]
        omega
      · rw [hfc]
        omega
      · exact hfm MAX_GENL_PAYLOAD_LENGTH (le_trans h1 h2) h3
    · -- no overflow: introduce the empty peers list in place, then append
      rw [emptyPeers_buffer_len] at hov
      have hq := push_eq_of_fits p (WgDeviceAttrs.Peers [])
        (by rw [emptyPeers_buffer_len]; omega)
      rw [push_peer_eq_fresh p pr hA' (by rw [emptyPeers_buffer_len]; omega), hq]
      dsimp only
      refine ⟨rfl, ?_, ?_, h3⟩
      · refine le_trans (happ _ _) ?_
        rw [deviceSliceLen_append, deviceSliceLen_cons, deviceSliceLen_nil,
          emptyPeers_buffer_len]
        omega
      · omega

theorem run_size_spec (ops : List ApplyOp) : ∀ p : ApplyPayload,
    (∀ op ∈ ops, op.fits p.iface) →
    deviceSliceLen p.nlas ≤ p.current_buffer_len →
    p.current_buffer_len ≤ MAX_GENL_PAYLOAD_LENGTH →
    (∀ m ∈ p.messages, m.payloadLen ≤ MAX_GENL_PAYLOAD_LENGTH) →
    deviceSliceLen (p.run ops).nlas ≤ (p.run ops).current_buffer_len ∧
    (p.run ops).current_buffer_len ≤ MAX_GENL_PAYLOAD_LENGTH ∧
    ∀ m ∈ (p.run ops).messages, m.payloadLen ≤ MAX_GENL_PAYLOAD_LENGTH := by
  induction ops with
  | nil => exact fun p _ h1 h2 h3 => ⟨h1, h2, h3⟩
  | cons op rest ih =>
    intro p hops h1 h2 h3
    have hopfit := hops op (List.mem_cons_self op rest)
    have hrest : ∀ o ∈ rest, o.fits p.iface :=
      fun o ho => hops o (List.mem_cons_of_mem op ho)
    cases op with
    | dev a =>
      obtain ⟨hi, ha, hb, hc⟩ := push_size_spec p a hopfit h1 h2 h3
      show _ ∧ _ ∧ _
      exact ih (p.push a) (by rw [hi]; exact hrest) ha hb hc
    | peer pr =>
      obtain ⟨hi, ha, hb, hc⟩ := push_peer_size_spec p pr (by
        have := hopfit
        simp only [ApplyOp.fits] at this
        omega) h1 h2 h3
      show _ ∧ _ ∧ _
      exact ih (p.push_peer pr) (by rw [hi]; exact hrest) ha hb hc

/-- C2 amended: provided every pushed device attribute fits in a message
together with the interface-name attribute, and every pushed peer fits
together with the interface-name attribute and the peers-list overhead,
every message returned by `finish()` has encoded payload length at most
(not strictly below) the maximum generic-protocol payload size.  (The
strict, unconditional bound of the original claim fails: an oversized peer
is never split, and a chunk can land exactly on the cap.) -/
theorem c2_size_bound (iface : String) (ops : List ApplyOp)
    (h : ∀ op ∈ ops, op.fits iface) :
    ∀ m ∈ ((ApplyPayload.new iface).run ops).finish,
      m.payloadLen ≤ MAX_GENL_PAYLOAD_LENGTH := by
  have hrun := run_size_spec ops (ApplyPayload.new iface) h
    (by simp [ApplyPayload.new, deviceSliceLen_nil])
    (Nat.zero_le _)
    (by simp [ApplyPayload.new])
  obtain ⟨ha, hb, hc⟩ := hrun
  intro m hm
  exact (flush_nlas_spec _).2.2.2 MAX_GENL_PAYLOAD_LENGTH (le_trans ha hb) hc m hm

/-- Witness for the amended C2 theorem at a concrete fitting input. -/
theorem c2_size_bound_witness :
    (∀ op ∈ [ApplyOp.dev (WgDeviceAttrs.Fwmark 111)], op.fits "wg0") ∧
    ∀ m ∈ ((ApplyPayload.new "wg0").run [ApplyOp.dev (WgDeviceAttrs.Fwmark 111)]).finish,
      m.payloadLen ≤ MAX_GENL_PAYLOAD_LENGTH :=
  ⟨by decide, c2_size_bound "wg0" [ApplyOp.dev (WgDeviceAttrs.Fwmark 111)] (by decide)⟩

theorem nlasPeers_nil : nlasPeers [] = [] := rfl

theorem nlasPeers_cons_peers (ps : List (List WgPeerAttrs)) (l : List WgDeviceAttrs) :
    nlasPeers (WgDeviceAttrs.Peers ps :: l) = ps ++ nlasPeers l := by
  simp [nlasPeers, List.filterMap_cons]

theorem nlasPeers_cons_other (x : WgDeviceAttrs) (l : List WgDeviceAttrs)
    (hx : x.isPeersAttr = false) : nlasPeers (x :: l) = nlasPeers l := by
  cases x <;> simp_all [nlasPeers, List.filterMap_cons, WgDeviceAttrs.isPeersAttr]

theorem nlasPeers_append (l₁ l₂ : List WgDeviceAttrs) :
    nlasPeers (l₁ ++ l₂) = nlasPeers l₁ ++ nlasPeers l₂ := by
  simp [nlasPeers, List.filterMap_append]

theorem msgsPeers_nil : msgsPeers [] = [] := rfl

theorem msgsPeers_append (ms₁ ms₂ : List WgMessage) :
    msgsPeers (ms₁ ++ ms₂) = msgsPeers ms₁ ++ msgsPeers ms₂ := by
  simp [msgsPeers]

theorem msgsPeers_singleton (m : WgMessage) : msgsPeers [m] = nlasPeers m.nlas := by
  simp [msgsPeers]

theorem opsPeers_nil : opsPeers [] = [] := rfl

theorem opsPeers_cons_dev (a : WgDeviceAttrs) (ops : List ApplyOp) :
    opsPeers (ApplyOp.dev a :: ops) = opsPeers ops := by
  simp [opsPeers, List.filterMap_cons]

theorem opsPeers_cons_peer (pr : List WgPeerAttrs) (ops : List ApplyOp) :
    opsPeers (ApplyOp.peer pr :: ops) = pr :: opsPeers ops := by
  simp [opsPeers, List.filterMap_cons]

theorem nlasPeers_filter_keep (l : List WgDeviceAttrs) :
    nlasPeers (l.filter (fun nla => !nla.isEmptyPeersAttr)) = nlasPeers l := by
  simp only [WgDeviceAttrs.isEmptyPeersAttr]
  induction l with
  | nil => rfl
  | cons x xs ih =>
    rw [List.filter_cons]
    cases x with
    | Peers ps =>
      cases ps with
      | nil =>
        simpa [nlasPeers_cons_peers] using ih
      | cons q qs =>
        simp [nlasPeers_cons_peers, ih]
    | IfName s => simp [nlasPeers_cons_other, WgDeviceAttrs.isPeersAttr, ih]
    | PrivateKey k => simp [nlasPeers_cons_other, WgDeviceAttrs.isPeersAttr, ih]
    | PublicKey k => simp [nlasPeers_cons_other, WgDeviceAttrs.isPeersAttr, ih]
    | Flags f => simp [nlasPeers_cons_other, WgDeviceAttrs.isPeersAttr, ih]
    | ListenPort q => simp [nlasPeers_cons_other, WgDeviceAttrs.isPeersAttr, ih]
    | Fwmark m => simp [nlasPeers_cons_other, WgDeviceAttrs.isPeersAttr, ih]

theorem isPeersAttr_false_of_ne_true {x : WgDeviceAttrs}
    (h : ¬ x.isPeersAttr = true) : x.isPeersAttr = false := by
  revert h
  cases x.isPeersAttr <;> simp

theorem exists_peers_of_isPeersAttr {x : WgDeviceAttrs} (h : x.isPeersAttr = true) :
    ∃ ps, x = WgDeviceAttrs.Peers ps := by
  cases x <;> simp_all [WgDeviceAttrs.isPeersAttr]

theorem filter_peers_nil_of_any_false (l : List WgDeviceAttrs)
    (h : l.any WgDeviceAttrs.isPeersAttr = false) :
    l.filter WgDeviceAttrs.isPeersAttr = [] := by
  induction l with
  | nil => rfl
  | cons x xs ih =>
    simp only [List.any_cons, Bool.or_eq_false_iff] at h
    rw [List.filter_cons, h.1]
    simpa using ih h.2

theorem nlasPeers_nil_of_no_peers (l : List WgDeviceAttrs)
    (h : l.filter WgDeviceAttrs.isPeersAttr = []) : nlasPeers l = [] := by
  induction l with
  | nil => rfl
  | cons x xs ih =>
    rw [List.filter_cons] at h
    by_cases hx : x.isPeersAttr = true
    · rw [if_pos hx] at h
      cases h
    · have hx' := isPeersAttr_false_of_ne_true hx
      rw [if_neg hx] at h
      rw [nlasPeers_cons_other x xs hx']
      exact ih h

theorem appendToFirstPeers_cons_other (x : WgDeviceAttrs) (xs : List WgDeviceAttrs)
    (pr : List WgPeerAttrs) (hx : x.isPeersAttr = false) :
    appendToFirstPeers (x :: xs) pr = x :: appendToFirstPeers xs pr := by
  cases x <;> simp_all [appendToFirstPeers, WgDeviceAttrs.isPeersAttr]

theorem appendToFirstPeers_count (l : List WgDeviceAttrs) (pr : List WgPeerAttrs) :
    ((appendToFirstPeers l pr).filter WgDeviceAttrs.isPeersAttr).length =
      (l.filter WgDeviceAttrs.isPeersAttr).length := by
  induction l with
  | nil => rfl
  | cons x xs ih =>
    by_cases hx : x.isPeersAttr = true
    · obtain ⟨ps, rfl⟩ := exists_peers_of_isPeersAttr hx
      simp [appendToFirstPeers, List.filter_cons, WgDeviceAttrs.isPeersAttr]
    · have hx' := isPeersAttr_false_of_ne_true hx
      rw [appendToFirstPeers_cons_other x xs pr hx', List.filter_cons, List.filter_cons,
        hx']
      simpa using ih

theorem appendToFirstPeers_nlasPeers (l : List WgDeviceAttrs) (pr : List WgPeerAttrs)
    (hany : l.any WgDeviceAttrs.isPeersAttr = true)
    (hc : (l.filter WgDeviceAttrs.isPeersAttr).length ≤ 1) :
    nlasPeers (appendToFirstPeers l pr) = nlasPeers l ++ [pr] := by
  induction l with
  | nil => simp at hany
  | cons x xs ih =>
    by_cases hx : x.isPeersAttr = true
    · obtain ⟨ps, rfl⟩ := exists_peers_of_isPeersAttr hx
      have hxs : nlasPeers xs = [] := by
        apply nlasPeers_nil_of_no_peers
        apply List.length_eq_zero.mp
        rw [List.filter_cons] at hc
        simp only [WgDeviceAttrs.isPeersAttr, if_pos, List.length_cons] at hc
        omega
      simp [appendToFirstPeers, nlasPeers_cons_peers, hxs]
    · have hx' := isPeersAttr_false_of_ne_true hx
      have hany' : xs.any WgDeviceAttrs.isPeersAttr = true := by
        simpa [List.any_cons, hx'] using hany
      have hc' : (xs.filter WgDeviceAttrs.isPeersAttr).length ≤ 1 := by
        rw [List.filter_cons] at hc
        simpa [hx'] using hc
      rw [appendToFirstPeers_cons_other x xs pr hx', nlasPeers_cons_other x _ hx',
        nlasPeers_cons_other x xs hx']
      exact ih hany' hc'

theorem flush_peers_spec (p : ApplyPayload) :
    msgsPeers p.flush_nlas.messages = msgsPeers p.messages ++ nlasPeers p.nlas ∧
    nlasPeers p.flush_nlas.nlas = [] ∧
    p.flush_nlas.nlas.filter WgDeviceAttrs.isPeersAttr = [] := by
  unfold ApplyPayload.flush_nlas
  by_cases hk : (p.nlas.filter (fun nla => !nla.isEmptyPeersAttr)).isEmpty = true
  · rw [if_pos hk]
    have hnil : nlasPeers p.nlas = [] := by
      rw [← nlasPeers_filter_keep p.nlas, List.isEmpty_iff.mp hk, nlasPeers_nil]
    refine ⟨by simp [hnil], ?_, ?_⟩
    · rw [List.isEmpty_iff.mp hk, nlasPeers_nil]
    · rw [List.isEmpty_iff.mp hk]
      rfl
  · rw [if_neg hk]
    refine ⟨?_, rfl, rfl⟩
    rw [msgsPeers_append, msgsPeers_singleton]
    simp [nlasPeers_filter_keep]

theorem push_nonpeers_spec (p : ApplyPayload) (a : WgDeviceAttrs)
    (ha : a.isPeersAttr = false)
    (hc : (p.nlas.filter WgDeviceAttrs.isPeersAttr).length ≤ 1) :
    msgsPeers (p.push a).messages ++ nlasPeers (p.push a).nlas =
      msgsPeers p.messages ++ nlasPeers p.nlas ∧
    ((p.push a).nlas.filter WgDeviceAttrs.isPeersAttr).length ≤ 1 := by
  obtain ⟨hm, hn, hf⟩ := flush_peers_spec p
  simp only [ApplyPayload.push]
  by_cases hov : p.current_buffer_len + a.buffer_len > MAX_GENL_PAYLOAD_LENGTH
  · rw [if_pos hov]
    constructor
    · rw [nlasPeers_append, nlasPeers_cons_other a [] ha, nlasPeers_nil, hn, hm]
      simp
    · rw [List.filter_append, hf]
      cases a <;> simp_all [List.filter_cons, WgDeviceAttrs.isPeersAttr]
  · rw [if_neg hov]
    constructor
    · rw [nlasPeers_append, nlasPeers_cons_other a [] ha, nlasPeers_nil]
      simp
    · rw [List.filter_append]
      cases a <;> simp_all [List.filter_cons, WgDeviceAttrs.isPeersAttr]

theorem push_emptyPeers_spec (p : ApplyPayload)
    (hc : p.nlas.filter WgDeviceAttrs.isPeersAttr = []) :
    msgsPeers (p.push (WgDeviceAttrs.Peers [])).messages ++
        nlasPeers (p.push (WgDeviceAttrs.Peers [])).nlas =
      msgsPeers p.messages ++ nlasPeers p.nlas ∧
    ((p.push (WgDeviceAttrs.Peers [])).nlas.filter WgDeviceAttrs.isPeersAttr).length = 1 ∧
    (p.push (WgDeviceAttrs.Peers [])).nlas.any WgDeviceAttrs.isPeersAttr = true := by
  obtain ⟨hm, hn, hf⟩ := flush_peers_spec p
  simp only [ApplyPayload.push]
  by_cases hov : p.current_buffer_len + (WgDeviceAttrs.Peers []).buffer_len >
      MAX_GENL_PAYLOAD_LENGTH
  · rw [if_pos hov]
    refine ⟨?_, ?_, ?_⟩
    · rw [nlasPeers_append, nlasPeers_cons_peers, nlasPeers_nil, hn, hm]
      simp
    · rw [List.filter_append, hf]
      simp [List.filter_cons, WgDeviceAttrs.isPeersAttr]
    · simp [List.any_append, WgDeviceAttrs.isPeersAttr]
  · rw [if_neg hov]
    refine ⟨?_, ?_, ?_⟩
    · rw [nlasPeers_append, nlasPeers_cons_peers, nlasPeers_nil]
      simp
    · rw [List.filter_append, hc]
      simp [List.filter_cons, WgDeviceAttrs.isPeersAttr]
    · simp [List.any_append, WgDeviceAttrs.isPeersAttr]

theorem push_peer_peers_spec (p : ApplyPayload) (pr : List WgPeerAttrs)
    (hc : (p.nlas.filter WgDeviceAttrs.isPeersAttr).length ≤ 1) :
    msgsPeers (p.push_peer pr).messages ++ nlasPeers (p.push_peer pr).nlas =
      msgsPeers p.messages ++ nlasPeers p.nlas ++ [pr] ∧
    ((p.push_peer pr).nlas.filter WgDeviceAttrs.isPeersAttr).length ≤ 1 := by
  obtain ⟨hfm, hfn, hff⟩ := flush_peers_spec p
  by_cases hA : p.nlas.any WgDeviceAttrs.isPeersAttr = true
  · by_cases hov : p.current_buffer_len + (peerSliceLen pr + 4) > MAX_GENL_PAYLOAD_LENGTH
    · -- flush, then a fresh empty peers list, then append
      obtain ⟨hem, hec, hea⟩ := push_emptyPeers_spec p.flush_nlas hff
      rw [push_peer_eq_flush_haspeers p pr hA hov]
      dsimp only
      constructor
      · rw [appendToFirstPeers_nlasPeers _ pr hea (by omega), ← List.append_assoc, hem,
          hfn, hfm]
        simp
      · rw [appendToFirstPeers_count]
        omega
    · -- the peer joins the existing peers attribute
      rw [push_peer_eq_keep p pr hA hov]
      dsimp only
      constructor
      · rw [appendToFirstPeers_nlasPeers _ pr hA hc, ← List.append_assoc]
      · rw [appendToFirstPeers_count]
        exact hc
  · have hA' := Bool.eq_false_iff.mpr hA
    have hzero := filter_peers_nil_of_any_false p.nlas hA'
    by_cases hov : p.current_buffer_len + (peerSliceLen pr + 4 +
        (WgDeviceAttrs.Peers []).buffer_len) > MAX_GENL_PAYLOAD_LENGTH
    · obtain ⟨hem, hec, hea⟩ := push_emptyPeers_spec p.flush_nlas hff
      rw [push_peer_eq_flush_nopeers p pr hA' hov]
      dsimp only
      constructor
      · rw [appendToFirstPeers_nlasPeers _ pr hea (by omega), ← List.append_assoc, hem,
          hfn, hfm]
        simp
      · rw [appendToFirstPeers_count]
        omega
    · obtain ⟨hem, hec, hea⟩ := push_emptyPeers_spec p hzero
      rw [push_peer_eq_fresh p pr hA' hov]
      dsimp only
      constructor
      · rw [appendToFirstPeers_nlasPeers _ pr hea (by omega), ← List.append_assoc, hem]
      · rw [appendToFirstPeers_count]
        omega

theorem run_peers_spec (ops : List ApplyOp) : ∀ p : ApplyPayload,
    (∀ op ∈ ops, op.keepsPeersShape = true) →
    (p.nlas.filter WgDeviceAttrs.isPeersAttr).length ≤ 1 →
    msgsPeers (p.run ops).messages ++ nlasPeers (p.run ops).nlas =
      msgsPeers p.messages ++ nlasPeers p.nlas ++ opsPeers ops ∧
    ((p.run ops).nlas.filter WgDeviceAttrs.isPeersAttr).length ≤ 1 := by
  induction ops with
  | nil =>
    intro p _ hc
    rw [opsPeers_nil]
    exact ⟨by simp [ApplyPayload.run], by simpa [ApplyPayload.run] using hc⟩
  | cons op rest ih =>
    intro p hops hc
    have hrest : ∀ o ∈ rest, o.keepsPeersShape = true :=
      fun o ho => hops o (List.mem_cons_of_mem op ho)
    cases op with
    | dev a =>
      have ha : a.isPeersAttr = false := by
        have := hops (ApplyOp.dev a) (List.mem_cons_self _ rest)
        simpa [ApplyOp.keepsPeersShape] using this
      obtain ⟨hstep, hcnt⟩ := push_nonpeers_spec p a ha hc
      obtain ⟨htot, hcnt2⟩ := ih (p.push a) hrest hcnt
      refine ⟨?_, hcnt2⟩
      rw [opsPeers_cons_dev]
      show msgsPeers ((p.push a).run rest).messages ++
          nlasPeers ((p.push a).run rest).nlas = _
      rw [htot, hstep]
    | peer pr =>
      obtain ⟨hstep, hcnt⟩ := push_peer_peers_spec p pr hc
      obtain ⟨htot, hcnt2⟩ := ih (p.push_peer pr) hrest hcnt
      refine ⟨?_, hcnt2⟩
      rw [opsPeers_cons_peer]
      show msgsPeers ((p.push_peer pr).run rest).messages ++
          nlasPeers ((p.push_peer pr).run rest).nlas = _
      rw [htot, hstep]
      simp [List.append_assoc]

/-- C3: for any interleaving of peer pushes with non-peers device
attributes, the concatenation of the peers-lists of the finished messages,
in message order, is exactly the ordered sequence of pushed peer
record-lists — each record-list intact in a single message. -/
theorem c3_peer_stream_preserved (iface : String) (ops : List ApplyOp)
    (hops : ∀ op ∈ ops, op.keepsPeersShape = true) :
    msgsPeers ((ApplyPayload.new iface).run ops).finish = opsPeers ops := by
  obtain ⟨htot, hcnt⟩ := run_peers_spec ops (ApplyPayload.new iface) hops
    (by simp [ApplyPayload.new])
  obtain ⟨hm, hn, _⟩ := flush_peers_spec ((ApplyPayload.new iface).run ops)
  unfold ApplyPayload.finish
  rw [hm, htot]
  simp [ApplyPayload.new, msgsPeers_nil, nlasPeers_nil]

/-- Witness for C3 at a concrete operation sequence. -/
theorem c3_peer_stream_preserved_witness :
    (∀ op ∈ [ApplyOp.dev (WgDeviceAttrs.Fwmark 1), ApplyOp.peer [WgPeerAttrs.PublicKey 5]],
        op.keepsPeersShape = true) ∧
    msgsPeers ((ApplyPayload.new "wg0").run
        [ApplyOp.dev (WgDeviceAttrs.Fwmark 1), ApplyOp.peer [WgPeerAttrs.PublicKey 5]]).finish =
      opsPeers [ApplyOp.dev (WgDeviceAttrs.Fwmark 1), ApplyOp.peer [WgPeerAttrs.PublicKey 5]] :=
  ⟨by decide, c3_peer_stream_preserved "wg0"
    [ApplyOp.dev (WgDeviceAttrs.Fwmark 1), ApplyOp.peer [WgPeerAttrs.PublicKey 5]] (by decide)⟩
